import Mathlib

set_option maxRecDepth 40000
set_option maxHeartbeats 1000000

/-!
Verification development for the IsentaDB single-file storage engine.

The Rust source is shallowly embedded:
* A byte sequence (Rust `String` / `&str` / byte slice) is modelled as a
  pair `⟨len, val⟩` of its length and its little-endian base-256 value
  (`val < 256 ^ len`); byte `i` of the sequence is `val / 256 ^ i % 256`.
  `String::from_utf8` validation is abstracted away: decoded byte
  sequences are kept as byte sequences.
* A 4096-byte page is likewise its little-endian base-256 value, a `Nat`
  below `256 ^ 4096`; a slice read `p[a..b]` composed with
  `uN::from_le_bytes` is `p / 256 ^ a % 256 ^ (b - a)`, and
  `copy_from_slice` into `p[a..b]` is the corresponding arithmetic
  splice.  The database file is the list of its pages (index = page id).
* Machine integers are `Nat` / `Int` with explicit `% 2 ^ w` where the
  Rust code can wrap; `i64` goes through two's complement explicitly.
* Fallible Rust code returns `Except` / `Option`; Rust loops with no
  structural bound (which can in fact run forever) take explicit fuel,
  `none` meaning "did not finish within the given fuel".
-/

namespace IsentaDB

/-- Binary exponentiation worker: `powAux f k b = b ^ k` (proved below as
`powAux_eq`); the fuel only bounds the halving depth, and the base case
falls back to `b ^ k` so the function is total-correct.  `Nat.pow` itself
reduces one multiplication per unit of exponent, which is too deep to
evaluate at exponents like 4096; this worker needs only `log₂ k` steps. -/
def powAux : Nat → Nat → Nat → Nat
  | 0, k, b => b ^ k
  | f + 1, k, b =>
    if k = 0 then 1
    else (if k % 2 = 1 then b else 1) * powAux f (k / 2) (b * b)

/-- `256 ^ k`, evaluable by repeated squaring. -/
def pow256 (k : Nat) : Nat := powAux 24 k 256

/-- A byte string: length plus little-endian base-256 value. -/
structure Str where
  len : Nat
  val : Nat
deriving DecidableEq

/-- Byte `i` of a byte string. -/
def Str.byte (s : Str) (i : Nat) : Nat := s.val / pow256 i % 256

/-- Concatenation of byte strings (`a` first). -/
def Str.app (a b : Str) : Str := ⟨a.len + b.len, a.val + b.val * pow256 a.len⟩

/-- Prepend one byte. -/
def Str.cons (b : Nat) (s : Str) : Str := ⟨s.len + 1, b % 256 + 256 * s.val⟩

/-- The empty byte string. -/
def Str.nil : Str := ⟨0, 0⟩

/-- Convert a Lean string literal (ASCII) into its byte-string model. -/
def strOf (s : String) : Str :=
  ⟨s.data.length, s.data.foldr (fun c acc => c.toNat + 256 * acc) 0⟩

/-- The byte string consisting of `n` copies of byte `b` (e.g. a Rust
string of `n` repeated ASCII characters). -/
def repStr (n b : Nat) : Str := ⟨n, b * ((pow256 n - 1) / 255)⟩

/-- The bytes of a byte string as a list, most significant use: feeding
short strings (LIKE patterns) to the regex model. -/
def Str.toList (s : Str) : List Nat :=
  go s.len s.val
where
  go : Nat → Nat → List Nat
    | 0, _ => []
    | l + 1, v => v % 256 :: go l (v / 256)

/-- Does byte `b` occur in `s`? -/
def Str.hasByte (s : Str) (b : Nat) : Bool := s.toList.contains b

/-- Model of `u8::to_ascii_lowercase`. -/
def lowerByte (b : Nat) : Nat := if 65 ≤ b ∧ b ≤ 90 then b + 32 else b

/-- Model of `u8::to_ascii_uppercase`. -/
def upperByte (b : Nat) : Nat := if 97 ≤ b ∧ b ≤ 122 then b - 32 else b

/-- Apply a byte transformation pointwise (helper for the case maps). -/
def mapBytes (f : Nat → Nat) (s : Str) : Str :=
  ⟨s.len, go s.len s.val⟩
where
  go : Nat → Nat → Nat
    | 0, _ => 0
    | l + 1, v => f (v % 256) % 256 + 256 * go l (v / 256)

/-- Model of `str::to_lowercase` (its ASCII action, which is all the
engine relies on for the identifiers it handles). -/
def lowerStr (s : Str) : Str := mapBytes lowerByte s

/-- Model of `str::to_uppercase` (ASCII action). -/
def upperStr (s : Str) : Str := mapBytes upperByte s

/-- Model of `str::eq_ignore_ascii_case`. -/
def eqIgnoreAsciiCase (a b : Str) : Bool := lowerStr a == lowerStr b

/-- Accumulating decimal scan over `l` bytes (most significant first in
reading order, i.e. lowest byte first), `none` on a non-digit; helper for
the model of `i64::from_str`. -/
def digitsVal : Nat → Nat → Nat → Option Nat
  | 0, _, acc => some acc
  | l + 1, v, acc =>
    let b := v % 256
    if 48 ≤ b ∧ b ≤ 57 then digitsVal l (v / 256) (acc * 10 + (b - 48)) else none

/-- Model of `str::parse::<i64>()`: optional sign, at least one digit,
rejects values outside the `i64` range. -/
def parseI64 (s : Str) : Option Int :=
  if s.len = 0 then none
  else
    let b0 := s.val % 256
    let (neg, dl, dv) :=
      if b0 = 45 then (true, s.len - 1, s.val / 256)
      else if b0 = 43 then (false, s.len - 1, s.val / 256)
      else (false, s.len, s.val)
    if dl = 0 then none
    else
      match digitsVal dl dv 0 with
      | none => none
      | some n =>
        if neg then (if n ≤ 2 ^ 63 then some (-(n : Int)) else none)
        else (if n ≤ 2 ^ 63 - 1 then some (n : Int) else none)

/-- Decimal digits of a natural number (fuel-indexed so that it reduces
structurally; `natDec` supplies sufficient fuel). -/
def natDecFuel : Nat → Nat → Str
  | 0, _ => Str.nil
  | f + 1, n =>
    if n < 10 then ⟨1, 48 + n⟩
    else (natDecFuel f (n / 10)).app ⟨1, 48 + n % 10⟩

/-- Decimal byte string of a natural number. -/
def natDec (n : Nat) : Str := natDecFuel (n + 1) n

/-- Model of `i64::to_string`. -/
def intDec (v : Int) : Str :=
  if v < 0 then Str.cons 45 (natDec (-v).toNat) else natDec v.toNat

/-- Two's-complement reading of the 8-byte little-endian value `n`
(`n < 2 ^ 64`), the model of `i64::from_le_bytes`. -/
def i64OfLe (n : Nat) : Int :=
  if n < 2 ^ 63 then (n : Int) else (n : Int) - 2 ^ 64

/-- Two's-complement 8-byte little-endian value of an `i64`, the model of
`i64::to_le_bytes`. -/
def i64ToLe (v : Int) : Nat := (v.emod (2 ^ 64)).toNat

/-! ## Pager model (`storage.rs`) -/

/-- `PAGE_SIZE`. -/
def pageSize : Nat := 4096

/-- A page buffer: its 4096 bytes as a little-endian base-256 value.
`Page::new` yields the zero page. -/
abbrev Page := Nat

/-- Zero-filled fresh page. -/
def zeroPage : Page := 0

/-- The database file as a sequence of pages (index = page id). -/
abbrev Disk := List Page

/-- Model of `StorageEngine::read_page`: pages beyond end of file read
back zero-filled, and any stored value is normalized to 4096 bytes. -/
def readPage (d : Disk) (id : Nat) : Page := d.getD id 0 % pow256 pageSize

/-- Model of `StorageEngine::write_page`: seek to `id * 4096` and write
the whole page (writing past the end extends the file, with any gap
reading back as zeros). -/
def writePage (d : Disk) (id : Nat) (p : Page) : Disk :=
  if id < d.length then d.set id p
  else d ++ List.replicate (id - d.length) zeroPage ++ [p]

/-- Model of `StorageEngine::allocate_page`: the fresh id is
`file_len / PAGE_SIZE` and a zero page is written there.  Returns the new
file together with the allocated page id. -/
def allocPage (d : Disk) : Disk × Nat := (writePage d d.length zeroPage, d.length)

/-- The `n`-byte slice `p[off..off+n]` read as its little-endian value:
the composition of a slice read with `uN::from_le_bytes` (all code paths
guard `off + n ≤ 4096` before slicing, mirrored by the explicit guards in
the coders below). -/
def readSlice (p : Page) (off n : Nat) : Nat := p / pow256 off % pow256 n

/-- Read a slice as a byte string (`String::from_utf8(...to_vec())`, with
UTF-8 validity abstracted away). -/
def readStr (p : Page) (off n : Nat) : Str := ⟨n, readSlice p off n⟩

/-- Byte `off` of the page (a one-byte index read `p[off]`). -/
def byteAt (p : Page) (off : Nat) : Nat := readSlice p off 1

/-- Overwrite the `n` bytes at `off` with the value `v % 256 ^ n` (the
model of `copy_from_slice` into `p[off..off+n]`). -/
def writeSlice (p : Page) (off n v : Nat) : Page :=
  p % pow256 off + v % pow256 n * pow256 off + p / pow256 (off + n) * pow256 (off + n)

/-- Write a byte string at `off`. -/
def writeStr (p : Page) (off : Nat) (s : Str) : Page := writeSlice p off s.len s.val

/-- The `page.data.iter().all(|&b| b == 0)` emptiness test (a normalized
page is all zeros exactly when its value is 0). -/
def isZeroPage (p : Page) : Bool := p == 0

/-! ## Entities (`parser.rs` / `engine.rs` data model) -/

/-- `parser::Column`. -/
structure Column where
  name : Str
  data_type : Str
deriving DecidableEq

/-- `engine::Row`. -/
structure Row where
  values : List Str
deriving DecidableEq

/-- `engine::Table`. -/
structure Table where
  name : Str
  columns : List Column
  rows : List Row
deriving DecidableEq

/-- `parser::WhereClause`. -/
structure WhereClause where
  column : Str
  operator : Str
  value : Str
deriving DecidableEq

/-! ## File-format constants (`database.rs`) -/

/-- `MAGIC_NUMBER`. -/
def magicNumber : Nat := 0x4953454E54414442

/-- `DB_VERSION`. -/
def dbVersion : Nat := 1

/-- `TYPE_NULL`. -/
def typeNull : Nat := 0

/-- `TYPE_INT`. -/
def typeInt : Nat := 1

/-- `TYPE_TEXT`. -/
def typeText : Nat := 2

/-- The header page a fresh database file is formatted with
(`Database::initialize_if_needed`, empty-file branch): magic at 0..8,
version at 8..12, `schema_root = 0` at 12..20, `table_count = 0` at
20..24. -/
def freshHeader : Page :=
  writeSlice (writeSlice (writeSlice (writeSlice zeroPage 0 8 magicNumber)
    8 4 dbVersion) 12 8 0) 20 4 0

/-- A freshly initialized database file: just the formatted header page. -/
def freshDisk : Disk := [freshHeader]

/-! ## Row decoding (`Database::load_rows_from_pages`) -/

/-- Decode one tagged value at `off`.  Returns `(none, off')` when the
Rust loop would `break` mid-field (with `off'` the cursor position at the
break — the tag byte consumption has already advanced it), and
`(some v, off')` on success.  The `TYPE_TEXT` arm and the unknown-tag
legacy arm of the source are the same read sequence and share the final
arm here. -/
def decodeField (p : Page) (off : Nat) : Option Str × Nat :=
  if off + 1 > pageSize then (none, off)
  else
    let tag := byteAt p off
    let o1 := off + 1
    if tag = typeNull then (some Str.nil, o1)
    else if tag = typeInt then
      if o1 + 8 > pageSize then (none, o1)
      else (some (intDec (i64OfLe (readSlice p o1 8))), o1 + 8)
    else
      if o1 + 4 > pageSize then (none, o1)
      else
        let len := readSlice p o1 4
        let o2 := o1 + 4
        if len = 0 then (some Str.nil, o2)
        else if o2 + len > pageSize then (none, o2)
        else (some (readStr p o2 len), o2 + len)

/-- Decode the fields of one row (the `for _col in columns` loop): stops
at the first mid-field break, keeping the values decoded so far and the
cursor position of the break. -/
def decodeRowFields : List Column → Page → Nat → List Str × Nat
  | [], _, off => ([], off)
  | _ :: cs, p, off =>
    match decodeField p off with
    | (none, o1) => ([], o1)
    | (some v, o1) =>
      let (vs, o2) := decodeRowFields cs p o1
      (v :: vs, o2)

/-- Decode `n` rows from `off` (the `for _ in 0..num_rows` loop): a row is
kept only when its decoded arity equals the column count; decoding always
proceeds to the next row from wherever the cursor ended. -/
def decodeRowsN : Nat → Page → Nat → List Column → List Row × Nat
  | 0, _, off, _ => ([], off)
  | n + 1, p, off, cols =>
    let (vs, o1) := decodeRowFields cols p off
    let rest := decodeRowsN n p o1 cols
    (if vs.length = cols.length then ⟨vs⟩ :: rest.1 else rest.1, rest.2)

/-- Model of `Database::load_rows_from_pages`.  The Rust `loop` walks the
row-page chain with no cycle defense, so the model takes fuel: `none`
means the walk did not finish within `fuel` chain steps. -/
def loadRowsFuel : Nat → Disk → Nat → List Column → List Row → Option (List Row)
  | 0, _, _, _, _ => none
  | fuel + 1, d, pid, cols, acc =>
    let p := readPage d pid
    if isZeroPage p then some acc
    else
      let numRows := readSlice p 0 4
      if numRows = 0 then some acc
      else
        let (newRows, off) := decodeRowsN numRows p 4 cols
        let acc1 := acc ++ newRows
        if off + 8 > pageSize then some acc1
        else
          let next := readSlice p off 8
          if next = 0 then some acc1
          else loadRowsFuel fuel d next cols acc1

/-! ## Schema decoding (`Database::read_table_from_page`) -/

/-- Decode `n` column descriptors starting at `off` (the column loop of
`read_table_from_page`); `none` mirrors the `return Ok(None)` bounds
failures. -/
def decodeColumns : Nat → Page → Nat → List Column → Option (List Column × Nat)
  | 0, _, off, acc => some (acc, off)
  | n + 1, p, off, acc =>
    if off + 4 > pageSize then none
    else
      let cnl := readSlice p off 4
      if off + 4 + cnl > pageSize then none
      else
        let cname := readStr p (off + 4) cnl
        let off1 := off + 4 + cnl
        if off1 + 4 > pageSize then none
        else
          let tl := readSlice p off1 4
          if off1 + 4 + tl > pageSize then none
          else
            decodeColumns n p (off1 + 4 + tl) (acc ++ [⟨cname, readStr p (off1 + 4) tl⟩])

/-- The pure parsing part of `read_table_from_page`: table name, columns,
`data_page_id`, and the `next_schema_page_id` **read at the cursor
offset** right after `data_page_id`.  `none` mirrors the `Ok(None)`
invalid-page outcomes (the all-zero check lives in `readTableFromPage`). -/
def decodeSchemaPage (p : Page) : Option (Str × List Column × Nat × Nat) :=
  let nameLen := readSlice p 0 4
  if nameLen = 0 ∨ nameLen > 255 ∨ 4 + nameLen > pageSize then none
  else
    let name := readStr p 4 nameLen
    let off := 4 + nameLen
    if off + 4 > pageSize then none
    else
      let numCols := readSlice p off 4
      match decodeColumns numCols p (off + 4) [] with
      | none => none
      | some (cols, off2) =>
        if off2 + 8 > pageSize then none
        else
          let dpid := readSlice p off2 8
          if off2 + 8 + 8 > pageSize then none
          else some (name, cols, dpid, readSlice p (off2 + 8) 8)

/-- Model of `Database::read_table_from_page`.  Outer `none` = the
row-page walk inside did not finish within `rowFuel`; `some none` =
invalid page (`Ok(None)` in the source); otherwise the decoded table and
the next-schema-page id read at the cursor offset. -/
def readTableFromPage (rowFuel : Nat) (d : Disk) (pid : Nat) :
    Option (Option (Table × Nat)) :=
  let p := readPage d pid
  if isZeroPage p then some none
  else
    match decodeSchemaPage p with
    | none => some none
    | some (name, cols, dpid, next) =>
      if dpid > 0 then
        match loadRowsFuel rowFuel d dpid cols [] with
        | none => none
        | some rows => some (some (⟨name, cols, rows⟩, next))
      else some (some (⟨name, cols, []⟩, next))

/-! ## Catalog (`engine::Catalog`) -/

/-- Model of `Catalog::create_table`: rejects a duplicate by **exact**
name equality and otherwise appends the new empty table. -/
def createTableCat (tables : List Table) (name : Str) (cols : List Column) :
    Except Str (List Table) :=
  if tables.any (fun t => t.name == name) then
    .error (((strOf "Table ").app ⟨1, 39⟩).app ((name.app ⟨1, 39⟩).app
      (strOf " already exists")))
  else .ok (tables ++ [⟨name, cols, []⟩])

/-- Model of `Catalog::add_table`: skip when a case-insensitive name match
already exists, else append. -/
def addTable (tables : List Table) (t : Table) : List Table :=
  if tables.any (fun u => lowerStr u.name == lowerStr t.name) then tables
  else tables ++ [t]

/-- Folding `add_table` over loaded tables (tail of `load_catalog`). -/
def addTables (ts : List Table) : List Table := ts.foldl addTable []

/-! ## Catalog loading (`Database::load_catalog`) -/

/-- The schema-chain walk of `load_catalog`: `rem` is the number of tables
still expected (`num_tables - tables_loaded`, the loop bound), `visited`
the cycle-defense set, `acc` the tables decoded so far.  `none` = a
row-page walk inside `read_table_from_page` did not finish within
`rowFuel`. -/
def loadChain (rowFuel : Nat) (d : Disk) :
    Nat → Nat → List Nat → List Table → Option (List Table)
  | 0, _, _, acc => some acc
  | rem + 1, cur, visited, acc =>
    if cur = 0 then some acc
    else if cur ∈ visited then some acc
    else
      match readTableFromPage rowFuel d cur with
      | none => none
      | some none => some acc
      | some (some (t, next)) =>
        loadChain rowFuel d rem next (cur :: visited) (acc ++ [t])

/-- Model of `Database::load_catalog`.  Returns the (possibly repaired)
file together with the in-memory catalog; `none` = a row-page walk
diverged past `rowFuel`. -/
def loadCatalogFuel (rowFuel : Nat) (d : Disk) : Option (Disk × List Table) :=
  let header := readPage d 0
  let numTables := readSlice header 20 4
  let schemaRoot := readSlice header 12 8
  if numTables = 0 then
    if schemaRoot ≠ 0 then
      some (writePage d 0 (writeSlice header 12 8 0), [])
    else some (d, [])
  else if schemaRoot = 0 then
    some (writePage d 0 (writeSlice header 20 4 0), [])
  else
    match loadChain rowFuel d numTables schemaRoot [] [] with
    | none => none
    | some tables =>
      let d1 :=
        if tables.length ≠ numTables then
          writePage d 0 (writeSlice header 20 4 tables.length)
        else d
      some (d1, addTables tables)

/-- `load_catalog` terminates on file `d` (finishes within some fuel). -/
def loadTerminates (d : Disk) : Prop := ∃ fuel, (loadCatalogFuel fuel d).isSome

/-! ## Row encoding (`Database::save_rows_to_pages`) -/

/-- The byte string `INT`. -/
def strINT : Str := strOf "INT"

/-- The byte string `INTEGER`. -/
def strINTEGER : Str := strOf "INTEGER"

/-- The byte string `TEXT`. -/
def strTEXT : Str := strOf "TEXT"

/-- Encode one value into the page at `off`, following the tag rules of
`save_rows_to_pages`.  The returned `Bool` is the mid-field `break` flag;
in the source the tag byte is written and the cursor advanced over it
*before* the payload bound check, so a break can leave a dangling tag
byte behind — faithfully reproduced here. -/
def encodeField (p : Page) (off : Nat) (value : Str) (dataType : Str) :
    Page × Nat × Bool :=
  let colType := upperStr dataType
  if off + 1 > pageSize then (p, off, true)
  else if value.len = 0 then (writeSlice p off 1 typeNull, off + 1, false)
  else if colType = strINT ∨ colType = strINTEGER then
    match parseI64 value with
    | some v =>
      let p1 := writeSlice p off 1 typeInt
      if off + 1 + 8 > pageSize then (p1, off + 1, true)
      else (writeSlice p1 (off + 1) 8 (i64ToLe v), off + 1 + 8, false)
    | none =>
      let p1 := writeSlice p off 1 typeText
      if off + 1 + 4 + value.len > pageSize then (p1, off + 1, true)
      else
        (writeStr (writeSlice p1 (off + 1) 4 value.len) (off + 1 + 4) value,
          off + 1 + 4 + value.len, false)
  else
    let p1 := writeSlice p off 1 typeText
    if off + 1 + 4 + value.len > pageSize then (p1, off + 1, true)
    else
      (writeStr (writeSlice p1 (off + 1) 4 value.len) (off + 1 + 4) value,
        off + 1 + 4 + value.len, false)

/-- Encode the fields of one row (the loop over
`row.values.iter().zip(columns.iter())`), stopping at the first break. -/
def encodeRowFields : List (Str × Column) → Page → Nat → Page × Nat × Bool
  | [], p, off => (p, off, false)
  | (v, c) :: rest, p, off =>
    match encodeField p off v c.data_type with
    | (p1, o1, true) => (p1, o1, true)
    | (p1, o1, false) => encodeRowFields rest p1 o1

/-- The `for row in rows` loop of `save_rows_to_pages`.  A row counts as
written exactly when `row.values.len() == columns.len()` and the cursor
ended at or before `PAGE_SIZE - 8` — the source does **not** consult the
break flag here, so a row whose fields only partially fit can still be
counted.  On rejection the cursor (but not the page bytes) is rolled back
to the row start and the loop stops.  Returns (page, cursor, rows
written). -/
def encodeRowsLoop : List Row → List Column → Page → Nat → Page × Nat × Nat
  | [], _, p, off => (p, off, 0)
  | r :: rs, cols, p, off =>
    let (p1, o1, _) := encodeRowFields (r.values.zip cols) p off
    if r.values.length = cols.length ∧ o1 + 8 ≤ pageSize then
      let (p2, o2, w) := encodeRowsLoop rs cols p1 o1
      (p2, o2, w + 1)
    else (p1, off, 0)

/-- Model of `Database::save_rows_to_pages`.  Returns the new file, the
id of the page written for this call, and `some err` when the source
would return `Err` (in which case the current page is not written,
matching the `?` propagation).  Outer `none` = the unbounded recursion
(one level per chained page) did not finish within `fuel`: when a
nonempty remainder makes no progress the source recurses forever,
allocating a page each time. -/
def saveRowsFuel : Nat → List Row → List Column → Disk → Option Nat →
    Option (Disk × Nat × Option Str)
  | fuel, rows, cols, d, start =>
    let (d0, pid) :=
      match start with
      | some id => (d, id)
      | none => allocPage d
    let (p1, off, written) := encodeRowsLoop rows cols zeroPage 4
    let p2 := writeSlice p1 0 4 written
    if written < rows.length then
      match fuel with
      | 0 => none
      | f + 1 =>
        match saveRowsFuel f (rows.drop written) cols d0 none with
        | none => none
        | some (d1, _, some e) => some (d1, pid, some e)
        | some (d1, nid, none) =>
          if off + 8 > pageSize then
            some (d1, pid, some (strOf "Page overflow"))
          else some (writePage d1 pid (writeSlice p2 off 8 nid), pid, none)
    else
      if off + 8 > pageSize then some (d0, pid, some (strOf "Page overflow"))
      else some (writePage d0 pid (writeSlice p2 off 8 0), pid, none)

/-- `save_rows_to_pages` terminates on these arguments. -/
def saveRowsTerminates (rows : List Row) (cols : List Column) (d : Disk)
    (start : Option Nat) : Prop :=
  ∃ fuel, (saveRowsFuel fuel rows cols d start).isSome

/-! ## Schema writing (`Database::save_table`) -/

/-- The column-writing loop of `save_table`, building the schema page
buffer; `Err` mirrors the oversized-name/type early returns. -/
def writeColumnsBuf : List Column → Page → Nat → Except Str (Page × Nat)
  | [], p, off => .ok (p, off)
  | c :: cs, p, off =>
    if off + 4 + c.name.len > pageSize then .error (strOf "Column name too long")
    else
      let p1 := writeStr (writeSlice p off 4 c.name.len) (off + 4) c.name
      let off1 := off + 4 + c.name.len
      if off1 + 4 + c.data_type.len > pageSize then
        .error (strOf "Data type too long")
      else
        writeColumnsBuf cs
          (writeStr (writeSlice p1 off1 4 c.data_type.len) (off1 + 4) c.data_type)
          (off1 + 4 + c.data_type.len)

/-- The last-schema-page lookup and patch of `save_table`: the walk reads
the next pointer from the **last 8 bytes** of each page
(`current_page.data[current_page.data.len() - 8..]`) and patches those
trailing 8 bytes of the final page with the new page id.  The Rust loop
is unbounded, hence fuel. -/
def patchChain : Nat → Disk → Nat → Nat → Option Disk
  | 0, _, _, _ => none
  | f + 1, d, cur, newId =>
    let p := readPage d cur
    let nxt := readSlice p (pageSize - 8) 8
    if nxt = 0 then
      some (writePage d cur (writeSlice p (pageSize - 8) 8 newId))
    else patchChain f d nxt newId

/-- Model of `Database::save_table`.  Returns the file after all writes
the source performed, paired with `some err` when the source returns
`Err` (the schema page is *allocated before any validation*, so the file
has grown even on the error paths).  Outer `none` = fuel ran out inside
`save_rows_to_pages` or the chain walk.  The source writes the
`next_schema_page_id` into the buffer with an unchecked slice index; when
the cursor has fewer than 8 bytes of room that write panics, modelled by
the distinguished `panic: ...` error value. -/
def saveTableFuel (fuel : Nat) (d : Disk) (t : Table) (isNew : Bool) :
    Option (Disk × Option Str) :=
  let (d1, spid) := allocPage d
  if 0 + 4 + t.name.len > pageSize then some (d1, some (strOf "Table name too long"))
  else
    let p1 := writeStr (writeSlice zeroPage 0 4 t.name.len) 4 t.name
    let off1 := 4 + t.name.len
    if off1 + 4 > pageSize then some (d1, some (strOf "Page overflow"))
    else
      match writeColumnsBuf t.columns
          (writeSlice p1 off1 4 t.columns.length) (off1 + 4) with
      | .error e => some (d1, some e)
      | .ok (p2, off2) =>
        let dataRes : Option (Disk × Nat × Option Str) :=
          if t.rows = [] then
            let (d2, id) := allocPage d1
            some (d2, id, none)
          else saveRowsFuel fuel t.rows t.columns d1 none
        match dataRes with
        | none => none
        | some (d2, _, some e) => some (d2, some e)
        | some (d2, dpid, none) =>
          if off2 + 8 > pageSize then some (d2, some (strOf "Page overflow"))
          else
            let p3 := writeSlice p2 off2 8 dpid
            let off3 := off2 + 8
            if isNew = false then
              if off3 + 8 > pageSize then
                some (d2, some (strOf "panic: index out of range"))
              else
                some (writePage d2 spid (writeSlice p3 off3 8 0), none)
            else
              let header := readPage d2 0
              let root := readSlice header 12 8
              let d3opt : Option Disk :=
                if root = 0 then
                  some (writePage d2 0 (writeSlice header 12 8 spid))
                else patchChain fuel d2 root spid
              match d3opt with
              | none => none
              | some d3 =>
                if off3 + 8 > pageSize then
                  some (d3, some (strOf "panic: index out of range"))
                else
                  let d4 := writePage d3 spid (writeSlice p3 off3 8 0)
                  let header2 := readPage d4 0
                  let count := readSlice header2 20 4
                  let h3 := writeSlice header2 20 4 ((count + 1) % 2 ^ 32)
                  let root2 := readSlice h3 12 8
                  let h4 :=
                    if root2 = 0 then writeSlice h3 12 8 spid else h3
                  some (writePage d4 0 h4, none)

/-! ## Regex fragment (`regex::Regex` as used by `evaluate_condition`)

`evaluate_condition` compiles `format!("(?i)^{}$", pattern)` and tests
`is_match`.  The model covers exactly the regex fragment the translated
LIKE patterns can exercise: literal characters, `.`, postfix `*` and
`( )` groups; the `(?i)` flag and the `^`/`$` anchors of the wrapper are
modelled by case-insensitive full matching.  A pattern using a construct
outside this fragment, or one that is genuinely malformed (e.g. an
unclosed group), fails to compile, which `evaluate_condition` maps to
`false`. -/

/-- Regular-expression syntax fragment. -/
inductive RE where
  | eps : RE
  | never : RE
  | chr : Nat → RE
  | dot : RE
  | seq : RE → RE → RE
  | alt : RE → RE → RE
  | star : RE → RE
deriving DecidableEq

/-- Nullability (matches the empty string). -/
def nullable : RE → Bool
  | .eps => true
  | .never => false
  | .chr _ => false
  | .dot => false
  | .seq a b => nullable a && nullable b
  | .alt a b => nullable a || nullable b
  | .star _ => true

/-- Brzozowski derivative by the byte `b`, comparing characters
case-insensitively (the `(?i)` flag). -/
def deriv : RE → Nat → RE
  | .eps, _ => .never
  | .never, _ => .never
  | .chr c, b => if lowerByte c = lowerByte b then .eps else .never
  | .dot, _ => .eps
  | .seq a c, b =>
    if nullable a then .alt (.seq (deriv a b) c) (deriv c b)
    else .seq (deriv a b) c
  | .alt a c, b => .alt (deriv a b) (deriv c b)
  | .star a, b => .seq (deriv a b) (.star a)

/-- Anchored case-insensitive match (the `^...$` wrapper). -/
def reMatch (r : RE) (s : Str) : Bool := nullable (s.toList.foldl deriv r)

/-- Metacharacters outside the modelled fragment: a pattern containing
one is not compiled by the model. -/
def unsupportedMeta : List Nat := [43, 63, 124, 91, 93, 123, 125, 94, 36, 92]

/-- Recursive-descent parser for the fragment: parses a concatenation,
stopping at end of input or an unmatched closing parenthesis.  Fuel is
consumed on group recursion; `compileRE` supplies enough for any input.
A dangling `*` (nothing to repeat) and a doubled `**` are rejected, as
the real engine rejects them. -/
def parseSeq : Nat → List Nat → RE → Option (RE × List Nat)
  | 0, _, _ => none
  | _ + 1, [], acc => some (acc, [])
  | f + 1, c :: rest, acc =>
    if c = 41 then some (acc, c :: rest)
    else
      let atomRes : Option (RE × List Nat) :=
        if c = 46 then some (.dot, rest)
        else if c = 40 then
          match parseSeq f rest .eps with
          | some (r, 41 :: rest2) => some (r, rest2)
          | _ => none
        else if c = 42 ∨ c ∈ unsupportedMeta then none
        else some (.chr c, rest)
      match atomRes with
      | none => none
      | some (a, rest1) =>
        match rest1 with
        | 42 :: 42 :: _ => none
        | 42 :: rest2 => parseSeq f rest2 (.seq acc (.star a))
        | _ => parseSeq f rest1 (.seq acc a)

/-- Compile a pattern in the modelled fragment; `none` = compile error. -/
def compileRE (p : Str) : Option RE :=
  match parseSeq (p.len + 1) p.toList .eps with
  | some (r, []) => some r
  | _ => none

/-! ## WHERE evaluation (`QueryEngine::evaluate_condition`) -/

/-- The LIKE-to-regex translation of the source:
`clause_value.replace('%', ".*").replace('_', ".")`.  Only `%` (byte 37)
and `_` (byte 95) are rewritten; every other byte passes through
unescaped. -/
def likePattern (lit : Str) : Str :=
  go2 (go1 lit.len lit.val)
where
  go1 : Nat → Nat → Str
    | 0, _ => Str.nil
    | l + 1, v =>
      (if v % 256 = 37 then (strOf ".*") else Str.mk 1 (v % 256)).app (go1 l (v / 256))
  go2 (s : Str) : Str := go2aux s.len s.val
  go2aux : Nat → Nat → Str
    | 0, _ => Str.nil
    | l + 1, v =>
      (if v % 256 = 95 then Str.mk 1 46 else Str.mk 1 (v % 256)).app (go2aux l (v / 256))

/-- The LIKE test of the source: compile the translated pattern as a
case-insensitive anchored regex; a compile failure yields `false`. -/
def likeTest (lit rv : Str) : Bool :=
  match compileRE (likePattern lit) with
  | none => false
  | some r => reMatch r rv

/-- Reference semantics of a *literal* SQL LIKE pattern (stated from the
spec's description of LIKE: `%` = any sequence, `_` = any one character,
everything else literal, case-insensitive).  Used only to state that the
code's behavior differs from it. -/
def sqlLikeRE (pat : Str) : RE :=
  pat.toList.foldl (fun acc b =>
    if b = 37 then .seq acc (.star .dot)
    else if b = 95 then .seq acc .dot
    else .seq acc (.chr b)) .eps

/-- Literal SQL LIKE matching per the spec's words. -/
def sqlLikeMatch (pat s : Str) : Bool := reMatch (sqlLikeRE pat) s

/-- Model of `QueryEngine::evaluate_condition`. -/
def evaluateCondition (rowValue operator clauseValue columnType : Str) : Bool :=
  if columnType = strINTEGER then
    match parseI64 rowValue, parseI64 clauseValue with
    | some a, some b =>
      if operator = strOf "=" then a == b
      else if operator = strOf "!=" then a != b
      else if operator = strOf ">" then decide (b < a)
      else if operator = strOf "<" then decide (a < b)
      else if operator = strOf ">=" then decide (b ≤ a)
      else if operator = strOf "<=" then decide (a ≤ b)
      else false
    | _, _ => false
  else
    if operator = strOf "=" then eqIgnoreAsciiCase rowValue clauseValue
    else if operator = strOf "!=" then !eqIgnoreAsciiCase rowValue clauseValue
    else if operator = strOf "LIKE" then likeTest clauseValue rowValue
    else if operator = strOf "NOT LIKE" then !likeTest clauseValue rowValue
    else false

/-! ## UPDATE (`QueryEngine::execute_update`) -/

/-- Case-insensitive column lookup
(`columns.iter().position(|c| c.name.to_lowercase() == name.to_lowercase())`). -/
def findColIdx (cols : List Column) (name : Str) : Option Nat :=
  cols.findIdx? (fun c => lowerStr c.name == lowerStr name)

/-- One row of the WHERE-present update loop: evaluate the predicate on
the row's current value at `whereIdx`; on a hit overwrite index `setIdx`
and count 1, provided that index exists. -/
def updateRowWhere (whereIdx setIdx : Nat) (cond : Str → Bool) (newVal : Str)
    (r : Row) : Row × Nat :=
  match r.values[whereIdx]? with
  | none => (r, 0)
  | some v =>
    if cond v then
      if setIdx < r.values.length then (⟨r.values.set setIdx newVal⟩, 1)
      else (r, 0)
    else (r, 0)

/-- One row of the no-WHERE update loop. -/
def updateRowAll (setIdx : Nat) (newVal : Str) (r : Row) : Row × Nat :=
  if setIdx < r.values.length then (⟨r.values.set setIdx newVal⟩, 1) else (r, 0)

/-- The row loop of `execute_update`, accumulating the updated count. -/
def updateRows (step : Row → Row × Nat) : List Row → List Row × Nat
  | [] => ([], 0)
  | r :: rs =>
    let (r1, c) := step r
    let (rest, n) := updateRows step rs
    (r1 :: rest, c + n)

/-- Model of `QueryEngine::execute_update` restricted to the catalog
state (the in-memory mutation and the returned count; persistence via
`update_table_data` is outside this function). -/
def executeUpdateTable (t : Table) (setColumn newValue : Str)
    (wc : Option WhereClause) : Except Str (Table × Nat) :=
  match findColIdx t.columns setColumn with
  | none => .error (strOf "Column not found")
  | some setIdx =>
    match wc with
    | some clause =>
      match findColIdx t.columns clause.column with
      | none => .error (strOf "Column not found")
      | some whereIdx =>
        let colType := ((t.columns.get? whereIdx).getD ⟨Str.nil, Str.nil⟩).data_type
        let cond := fun v => evaluateCondition v clause.operator clause.value colType
        let (rows1, n) :=
          updateRows (updateRowWhere whereIdx setIdx cond newValue) t.rows
        .ok ({ t with rows := rows1 }, n)
    | none =>
      let (rows1, n) := updateRows (updateRowAll setIdx newValue) t.rows
      .ok ({ t with rows := rows1 }, n)

/-! ## Derived observers used by the claims -/

/-- `table_count` as stored in the header page. -/
def headerTableCount (d : Disk) : Nat := readSlice (readPage d 0) 20 4

/-- `schema_root` as stored in the header page. -/
def headerSchemaRoot (d : Disk) : Nat := readSlice (readPage d 0) 12 8

/-- The schema pages reachable from `schema_root` by following each
page's `next_schema_page_id` field of the layout (the last `u64` after
the column list and `data_page_id`, i.e. the field the loader reads).
The walk stops at 0, at a revisited page, at an undecodable page, or when
fuel runs out. -/
def reachableSchemaPages (fuel : Nat) (d : Disk) : List Nat :=
  go fuel (headerSchemaRoot d) []
where
  go : Nat → Nat → List Nat → List Nat
    | 0, _, acc => acc.reverse
    | f + 1, cur, acc =>
      if cur = 0 ∨ cur ∈ acc then acc.reverse
      else
        match decodeSchemaPage (readPage d cur) with
        | none => (cur :: acc).reverse
        | some (_, _, _, next) => go f next (cur :: acc)

/-- All row-page chain walks on file `d` halt within some fuel. -/
def rowChainsHalt (d : Disk) : Prop :=
  ∀ pid cols acc, ∃ fuel, (loadRowsFuel fuel d pid cols acc).isSome

/-- The WHERE predicate of `execute_update` as a function of a row's
pre-update values: `true` when no WHERE clause is given, otherwise the
`evaluate_condition` result on the value at the (case-insensitively
resolved) WHERE column, against that column's declared type. -/
def rowPred (cols : List Column) (wc : Option WhereClause) (r : Row) : Bool :=
  match wc with
  | none => true
  | some c =>
    match findColIdx cols c.column with
    | none => false
    | some wi =>
      evaluateCondition (r.values.getD wi Str.nil) c.operator c.value
        (((cols.get? wi).getD ⟨Str.nil, Str.nil⟩).data_type)

/-! ## Concrete scenario inputs used by the claim theorems -/

/-- `CREATE TABLE a (c TEXT)`. -/
def tblA : Table := ⟨strOf "a", [⟨strOf "c", strTEXT⟩], []⟩

/-- `CREATE TABLE b (d TEXT)`. -/
def tblB : Table := ⟨strOf "b", [⟨strOf "d", strTEXT⟩], []⟩

/-- File after creating `tblA` on a fresh database. -/
def diskOne : Disk := ((saveTableFuel 9 freshDisk tblA true).getD ([], none)).1

/-- File after additionally creating `tblB`. -/
def diskTwo : Disk := ((saveTableFuel 9 diskOne tblB true).getD ([], none)).1

/-- A single TEXT column `v`. -/
def colV : Column := ⟨strOf "v", strTEXT⟩

/-- A row holding one 3000-byte text value (two of these cannot share one
4096-byte page, so saving two must span pages). -/
def bigRow : Row := ⟨[repStr 3000 97]⟩

/-- Save two `bigRow`s into an empty file and load them back. -/
def c3Loaded : Option (List Row) :=
  match saveRowsFuel 9 [bigRow, bigRow] [colV] [] none with
  | some (d, pid, none) => loadRowsFuel 9 d pid [colV] []
  | _ => none

/-- A row holding one 4085-byte text value: its encoding fits the
per-field bound checks but leaves fewer than 8 trailing bytes, so
`save_rows_to_pages` rolls it back, writes no rows, and recurses on the
unchanged row list forever. -/
def hugeRow : Row := ⟨[repStr 4085 97]⟩

/-- A table whose 5000-byte name cannot fit any schema page. -/
def bigNameTbl : Table := ⟨repStr 5000 97, [], []⟩

/-- A schema page for table `a` with one TEXT column `v` (name and column
list occupy bytes 0..22; `data_page_id` fills 22..30, the
`next_schema_page_id` field 30..38). -/
def schemaPageBase : Page :=
  writeStr (writeSlice (writeStr (writeSlice (writeSlice (writeStr (writeSlice
    zeroPage 0 4 1) 4 (strOf "a")) 5 4 1) 9 4 1) 13 (strOf "v")) 14 4 4) 18 strTEXT

/-- The schema page of `a` pointing at row page 2, end of schema chain. -/
def schemaPageRows : Page :=
  writeSlice (writeSlice schemaPageBase 22 8 2) 30 8 0

/-- A row page holding one row (`TYPE_TEXT`, value `a`) whose
`next_row_page_id` points back to itself (page id 2). -/
def rowPageCyc : Page :=
  writeSlice (writeStr (writeSlice (writeSlice (writeSlice
    zeroPage 0 4 1) 4 1 typeText) 5 4 1) 9 (strOf "a")) 10 8 2

/-- Header announcing one table rooted at schema page 1. -/
def headerOneTable : Page :=
  writeSlice (writeSlice freshHeader 12 8 1) 20 4 1

/-- A file whose single table has a self-cyclic row-page chain. -/
def cycDisk : Disk := [headerOneTable, schemaPageRows, rowPageCyc]

/-- The schema page of `a` with no rows and `next_schema_page_id`
pointing at itself (page id 1). -/
def schemaPageSelf : Page :=
  writeSlice (writeSlice schemaPageBase 22 8 0) 30 8 1

/-- Header announcing two tables rooted at schema page 1. -/
def headerTwoTables : Page :=
  writeSlice (writeSlice freshHeader 12 8 1) 20 4 2

/-- The B4 file: a schema page whose next pointer is itself. -/
def b4Disk : Disk := [headerTwoTables, schemaPageSelf]

/-- A header claiming five tables but a zero schema root (B3). -/
def b3Disk : Disk := [writeSlice freshHeader 20 4 5]

/-- Table `x (id INT, name TEXT)` with two rows, for the UPDATE claim. -/
def tblU : Table :=
  ⟨strOf "x", [⟨strOf "id", strINT⟩, ⟨strOf "name", strTEXT⟩],
    [⟨[strOf "1", strOf "One"]⟩, ⟨[strOf "2", strOf "Two"]⟩]⟩

/-! ## Arithmetic toolkit -/

theorem powAux_eq : ∀ (f k b : Nat), powAux f k b = b ^ k := by
  intro f
  induction f with
  | zero => intro k b; rfl
  | succ f ih =>
    intro k b
    show (if k = 0 then 1 else (if k % 2 = 1 then b else 1) * powAux f (k / 2) (b * b))
      = b ^ k
    by_cases hk : k = 0
    · simp [hk]
    · rw [if_neg hk, ih]
      have hbb : b * b = b ^ 2 := by ring
      rw [hbb, ← pow_mul]
      conv_rhs => rw [← Nat.div_add_mod k 2]
      rw [pow_add]
      by_cases h2 : k % 2 = 1
      · rw [if_pos h2, h2, pow_one, mul_comm]
      · have h0 : k % 2 = 0 := by omega
        rw [if_neg h2, h0, pow_zero, one_mul, mul_one]

theorem pow256_eq (k : Nat) : pow256 k = 256 ^ k := powAux_eq 24 k 256

theorem readSlice_writeSlice_self (p off n v : Nat) (hv : v < 256 ^ n) :
    readSlice (writeSlice p off n v) off n = v := by
  simp only [readSlice, writeSlice, pow256_eq]
  rw [Nat.mod_eq_of_lt hv, pow_add]
  have hpos : 0 < (256 : Nat) ^ off := pow_pos (by norm_num) off
  have h1 : p % 256 ^ off + v * 256 ^ off + p / (256 ^ off * 256 ^ n) * (256 ^ off * 256 ^ n)
      = p % 256 ^ off + (v + p / (256 ^ off * 256 ^ n) * 256 ^ n) * 256 ^ off := by ring
  rw [h1, Nat.add_mul_div_right _ _ hpos, Nat.div_eq_of_lt (Nat.mod_lt _ hpos)]
  simp [Nat.add_mul_mod_self_right, Nat.mod_eq_of_lt hv]

theorem readSlice_writeSlice_before (p off n v off1 n1 : Nat) (h : off1 + n1 ≤ off) :
    readSlice (writeSlice p off n v) off1 n1 = readSlice p off1 n1 := by
  simp only [readSlice, writeSlice, pow256_eq]
  have hpos : 0 < (256 : Nat) ^ off1 := pow_pos (by norm_num) off1
  have hsplit : (256 : Nat) ^ off = 256 ^ off1 * 256 ^ (off - off1) := by
    rw [← pow_add]
    congr 1
    omega
  have h1 : p % 256 ^ off + v % 256 ^ n * 256 ^ off
        + p / 256 ^ (off + n) * 256 ^ (off + n)
      = p % 256 ^ off + ((v % 256 ^ n * 256 ^ (off - off1)
        + p / 256 ^ (off + n) * (256 ^ (off + n - off1))) * 256 ^ off1) := by
    have e1 : (256 : Nat) ^ off = 256 ^ (off - off1) * 256 ^ off1 := by
      rw [← pow_add]; congr 1; omega
    have e2 : (256 : Nat) ^ (off + n) = 256 ^ (off + n - off1) * 256 ^ off1 := by
      rw [← pow_add]; congr 1; omega
    calc p % 256 ^ off + v % 256 ^ n * 256 ^ off
          + p / 256 ^ (off + n) * 256 ^ (off + n)
        = p % 256 ^ off + v % 256 ^ n * (256 ^ (off - off1) * 256 ^ off1)
          + p / 256 ^ (off + n) * (256 ^ (off + n - off1) * 256 ^ off1) := by
          rw [← e1, ← e2]
      _ = _ := by ring
  rw [h1, Nat.add_mul_div_right _ _ hpos]
  have h2 : (v % 256 ^ n * 256 ^ (off - off1)
      + p / 256 ^ (off + n) * 256 ^ (off + n - off1))
      = (v % 256 ^ n * 256 ^ (off - off1 - n1)
      + p / 256 ^ (off + n) * 256 ^ (off + n - off1 - n1)) * 256 ^ n1 := by
    have e3 : (256 : Nat) ^ (off - off1) = 256 ^ (off - off1 - n1) * 256 ^ n1 := by
      rw [← pow_add]; congr 1; omega
    have e4 : (256 : Nat) ^ (off + n - off1)
        = 256 ^ (off + n - off1 - n1) * 256 ^ n1 := by
      rw [← pow_add]; congr 1; omega
    rw [e3, e4]; ring
  rw [h2, Nat.add_mul_mod_self_right]
  rw [hsplit, Nat.mod_mul_right_div_self, Nat.mod_mod_of_dvd]
  exact pow_dvd_pow 256 (by omega)

theorem lowPart_lt (p off n v : Nat) :
    p % 256 ^ off + v % 256 ^ n * 256 ^ off < 256 ^ (off + n) := by
  have h1 : p % 256 ^ off < 256 ^ off := Nat.mod_lt _ (pow_pos (by norm_num) off)
  have h2 : v % 256 ^ n < 256 ^ n := Nat.mod_lt _ (pow_pos (by norm_num) n)
  calc p % 256 ^ off + v % 256 ^ n * 256 ^ off
      < 256 ^ off + v % 256 ^ n * 256 ^ off := by omega
    _ = (1 + v % 256 ^ n) * 256 ^ off := by ring
    _ ≤ 256 ^ n * 256 ^ off := Nat.mul_le_mul_right _ (by omega)
    _ = 256 ^ (off + n) := by rw [← pow_add]; ring_nf

theorem readSlice_writeSlice_after (p off n v off1 n1 : Nat) (h : off + n ≤ off1) :
    readSlice (writeSlice p off n v) off1 n1 = readSlice p off1 n1 := by
  simp only [readSlice, writeSlice, pow256_eq]
  have hL := lowPart_lt p off n v
  have hstep : ∀ q : Nat, (p % 256 ^ off + v % 256 ^ n * 256 ^ off + q * 256 ^ (off + n))
      / 256 ^ (off + n) = q := by
    intro q
    rw [Nat.add_mul_div_right _ _ (pow_pos (by norm_num) (off + n)),
      Nat.div_eq_of_lt hL]
    omega
  have hsplit : (256 : Nat) ^ off1 = 256 ^ (off + n) * 256 ^ (off1 - (off + n)) := by
    rw [← pow_add]; congr 1; omega
  rw [hsplit, ← Nat.div_div_eq_div_mul, ← Nat.div_div_eq_div_mul, hstep]

theorem writeSlice_lt (p : Page) (off n v : Nat) (hoff : off + n ≤ pageSize)
    (hp : p < pow256 pageSize) : writeSlice p off n v < pow256 pageSize := by
  simp only [writeSlice, pow256_eq] at *
  have hL := lowPart_lt p off n v
  have hq : p / 256 ^ (off + n) < 256 ^ (pageSize - (off + n)) := by
    apply Nat.div_lt_of_lt_mul
    rw [← pow_add]
    have he : off + n + (pageSize - (off + n)) = pageSize := by omega
    rw [he]
    exact hp
  have h1 : 1 + p / 256 ^ (off + n) ≤ 256 ^ (pageSize - (off + n)) := by
    rw [Nat.add_comm]
    exact hq
  calc p % 256 ^ off + v % 256 ^ n * 256 ^ off + p / 256 ^ (off + n) * 256 ^ (off + n)
      < 256 ^ (off + n) + p / 256 ^ (off + n) * 256 ^ (off + n) :=
        Nat.add_lt_add_right hL _
    _ = (1 + p / 256 ^ (off + n)) * 256 ^ (off + n) := by ring
    _ ≤ 256 ^ (pageSize - (off + n)) * 256 ^ (off + n) := Nat.mul_le_mul_right _ h1
    _ = 256 ^ pageSize := by rw [← pow_add]; congr 1; omega

theorem readPage_lt (d : Disk) (id : Nat) : readPage d id < pow256 pageSize := by
  unfold readPage
  exact Nat.mod_lt _ (by rw [pow256_eq]; exact pow_pos (by norm_num) pageSize)

theorem readPage_writePage_self (d : Disk) (id : Nat) (p : Page) :
    readPage (writePage d id p) id = p % pow256 pageSize := by
  unfold readPage writePage
  by_cases h : id < d.length
  · rw [if_pos h]
    rw [List.getD_eq_getElem?_getD, List.getElem?_set_self h]
    rfl
  · rw [if_neg h]
    rw [List.getD_eq_getElem?_getD, List.append_assoc,
      List.getElem?_append_right (by omega)]
    have hlen : (List.replicate (id - d.length) zeroPage).length = id - d.length := by
      simp
    rw [List.getElem?_append_right (by simp)]
    rw [hlen]
    have hz : id - d.length - (id - d.length) = 0 := by omega
    rw [hz]
    rfl

/-! ## Fuel monotonicity and conditional termination of the loader -/

theorem loadRowsFuel_mono : ∀ (f1 : Nat) {f2 : Nat} (d : Disk) (pid : Nat)
    (cols : List Column) (acc : List Row) {r : List Row}, f1 ≤ f2 →
    loadRowsFuel f1 d pid cols acc = some r → loadRowsFuel f2 d pid cols acc = some r := by
  intro f1
  induction f1 with
  | zero =>
    intro f2 d pid cols acc r _ h
    exact absurd h (by simp [loadRowsFuel])
  | succ f ih =>
    intro f2 d pid cols acc r hle h
    obtain ⟨f2p, rfl⟩ : ∃ g, f2 = g + 1 := ⟨f2 - 1, by omega⟩
    simp only [loadRowsFuel] at h ⊢
    by_cases h1 : isZeroPage (readPage d pid)
    · rw [if_pos h1] at h ⊢; exact h
    · rw [if_neg h1] at h ⊢
      by_cases h2 : readSlice (readPage d pid) 0 4 = 0
      · rw [if_pos h2] at h ⊢; exact h
      · rw [if_neg h2] at h ⊢
        rcases hdec : decodeRowsN (readSlice (readPage d pid) 0 4) (readPage d pid) 4 cols
          with ⟨newRows, off⟩
        rw [hdec] at h
        dsimp only at h ⊢
        by_cases h3 : off + 8 > pageSize
        · rw [if_pos h3] at h ⊢; exact h
        · rw [if_neg h3] at h ⊢
          by_cases h4 : readSlice (readPage d pid) off 8 = 0
          · rw [if_pos h4] at h ⊢; exact h
          · rw [if_neg h4] at h ⊢
            exact ih d _ cols _ (by omega) h

theorem readTableFromPage_mono {f1 f2 : Nat} (d : Disk) (pid : Nat)
    {r : Option (Table × Nat)} (hle : f1 ≤ f2)
    (h : readTableFromPage f1 d pid = some r) :
    readTableFromPage f2 d pid = some r := by
  simp only [readTableFromPage] at h ⊢
  by_cases h1 : isZeroPage (readPage d pid)
  · rw [if_pos h1] at h ⊢; exact h
  · rw [if_neg h1] at h ⊢
    rcases hd : decodeSchemaPage (readPage d pid) with _ | ⟨name, cols, dpid, next⟩
    · rw [hd] at h; exact h
    · rw [hd] at h
      dsimp only at h ⊢
      by_cases h2 : dpid > 0
      · rw [if_pos h2] at h ⊢
        cases hl : loadRowsFuel f1 d dpid cols [] with
        | none => rw [hl] at h; exact absurd h (by simp)
        | some rows =>
          rw [hl] at h
          rw [loadRowsFuel_mono f1 d dpid cols [] hle hl]
          exact h
      · rw [if_neg h2] at h ⊢; exact h

theorem loadChain_mono : ∀ (rem : Nat) {f1 f2 : Nat} (d : Disk) (cur : Nat)
    (visited : List Nat) (acc : List Table) {r : List Table}, f1 ≤ f2 →
    loadChain f1 d rem cur visited acc = some r →
    loadChain f2 d rem cur visited acc = some r := by
  intro rem
  induction rem with
  | zero => intro f1 f2 d cur visited acc r _ h; exact h
  | succ rem ih =>
    intro f1 f2 d cur visited acc r hle h
    simp only [loadChain] at h ⊢
    by_cases h1 : cur = 0
    · rw [if_pos h1] at h ⊢; exact h
    · rw [if_neg h1] at h ⊢
      by_cases h2 : cur ∈ visited
      · rw [if_pos h2] at h ⊢; exact h
      · rw [if_neg h2] at h ⊢
        cases hrt : readTableFromPage f1 d cur with
        | none => rw [hrt] at h; exact absurd h (by simp)
        | some v =>
          rw [hrt] at h
          rw [readTableFromPage_mono d cur hle hrt]
          cases v with
          | none => exact h
          | some tv =>
            obtain ⟨t, next⟩ := tv
            exact ih d next (cur :: visited) (acc ++ [t]) hle h

theorem loadChain_halts (d : Disk) (hd : rowChainsHalt d) :
    ∀ rem cur visited acc, ∃ fuel, (loadChain fuel d rem cur visited acc).isSome := by
  intro rem
  induction rem with
  | zero => intro cur visited acc; exact ⟨0, rfl⟩
  | succ rem ih =>
    intro cur visited acc
    by_cases h1 : cur = 0
    · exact ⟨0, by simp [loadChain, h1]⟩
    · by_cases h2 : cur ∈ visited
      · exact ⟨0, by simp [loadChain, h1, h2]⟩
      · have hrt : ∃ f0 v, readTableFromPage f0 d cur = some v := by
          by_cases hz : isZeroPage (readPage d cur)
          · exact ⟨0, none, by simp [readTableFromPage, hz]⟩
          · rcases hdp : decodeSchemaPage (readPage d cur) with _ | ⟨name, cols, dpid, next⟩
            · exact ⟨0, none, by simp [readTableFromPage, hz, hdp]⟩
            · by_cases hp : dpid > 0
              · obtain ⟨f0, hf0⟩ := hd dpid cols []
                obtain ⟨rows, hrows⟩ := Option.isSome_iff_exists.mp hf0
                exact ⟨f0, some (⟨name, cols, rows⟩, next),
                  by simp [readTableFromPage, hz, hdp, hp, hrows]⟩
              · exact ⟨0, some (⟨name, cols, []⟩, next),
                  by simp [readTableFromPage, hz, hdp, hp]⟩
        obtain ⟨f0, v, hv⟩ := hrt
        cases v with
        | none => exact ⟨f0, by simp [loadChain, h1, h2, hv]⟩
        | some tv =>
          obtain ⟨t, next⟩ := tv
          obtain ⟨f1, hf1⟩ := ih next (cur :: visited) (acc ++ [t])
          obtain ⟨res, hres⟩ := Option.isSome_iff_exists.mp hf1
          refine ⟨max f0 f1, ?_⟩
          have hv2 := readTableFromPage_mono d cur (Nat.le_max_left f0 f1) hv
          have hres2 := loadChain_mono rem d next (cur :: visited) (acc ++ [t])
            (Nat.le_max_right f0 f1) hres
          simp [loadChain, h1, h2, hv2, hres2]

theorem loadCatalog_halts (d : Disk) (hd : rowChainsHalt d) : loadTerminates d := by
  by_cases h1 : readSlice (readPage d 0) 20 4 = 0
  · refine ⟨0, ?_⟩
    by_cases h2 : readSlice (readPage d 0) 12 8 = 0 <;> simp [loadCatalogFuel, h1, h2]
  · by_cases h2 : readSlice (readPage d 0) 12 8 = 0
    · exact ⟨0, by simp [loadCatalogFuel, h1, h2]⟩
    · obtain ⟨f, hf⟩ := loadChain_halts d hd (readSlice (readPage d 0) 20 4)
        (readSlice (readPage d 0) 12 8) [] []
      obtain ⟨tables, ht⟩ := Option.isSome_iff_exists.mp hf
      exact ⟨f, by simp [loadCatalogFuel, h1, h2, ht]⟩

/-! ## Divergence of the unguarded loops on the crafted inputs -/

theorem loadRowsCycNone : ∀ (fuel : Nat) (acc : List Row),
    loadRowsFuel fuel cycDisk 2 [colV] acc = none := by
  intro fuel
  induction fuel with
  | zero => intro acc; rfl
  | succ f ih => intro acc; exact ih (acc ++ [⟨[strOf "a"]⟩])

theorem readTableCycNone (fuel : Nat) : readTableFromPage fuel cycDisk 1 = none := by
  have h := loadRowsCycNone fuel []
  calc readTableFromPage fuel cycDisk 1
      = (match loadRowsFuel fuel cycDisk 2 [colV] [] with
         | none => (none : Option (Option (Table × Nat)))
         | some rows => some (some (⟨strOf "a", [colV], rows⟩, 0))) := rfl
    _ = none := by rw [h]

theorem loadChainCycNone (fuel : Nat) : loadChain fuel cycDisk 1 1 [] [] = none := by
  have h := readTableCycNone fuel
  calc loadChain fuel cycDisk 1 1 [] []
      = (match readTableFromPage fuel cycDisk 1 with
         | none => (none : Option (List Table))
         | some none => some []
         | some (some (t, next)) => loadChain fuel cycDisk 0 next [1] ([] ++ [t])) := rfl
    _ = none := by rw [h]

theorem loadCatalogCycNone (fuel : Nat) : loadCatalogFuel fuel cycDisk = none := by
  have h := loadChainCycNone fuel
  calc loadCatalogFuel fuel cycDisk
      = (match loadChain fuel cycDisk 1 1 [] [] with
         | none => none
         | some tables =>
           some (if tables.length ≠ 1 then
                   writePage cycDisk 0 (writeSlice (readPage cycDisk 0) 20 4 tables.length)
                 else cycDisk, addTables tables)) := rfl
    _ = none := by rw [h]

theorem saveRowsHugeNone : ∀ (fuel : Nat) (d : Disk),
    saveRowsFuel fuel [hugeRow] [colV] d none = none := by
  intro fuel
  induction fuel with
  | zero => intro d; rfl
  | succ f ih =>
    intro d
    calc saveRowsFuel (f + 1) [hugeRow] [colV] d none
        = (match saveRowsFuel f [hugeRow] [colV] (writePage d d.length zeroPage) none with
           | none => none
           | some (d1, _, some e) => some (d1, d.length, some e)
           | some (d1, nid, none) =>
             some (writePage d1 d.length
               (writeSlice (writeSlice (encodeRowsLoop [hugeRow] [colV] zeroPage 4).1 0 4 0)
                 4 8 nid), d.length, none)) := rfl
      _ = none := by rw [ih (writePage d d.length zeroPage)]

/-! ## UPDATE loop characterization -/

theorem findColIdx_lt {cols : List Column} {name : Str} {i : Nat}
    (h : findColIdx cols name = some i) : i < cols.length := by
  unfold findColIdx at h
  obtain ⟨hlt, -⟩ := List.findIdx?_eq_some_iff_getElem.mp h
  exact hlt

theorem updateRows_where_spec (whereIdx setIdx : Nat) (cond : Str → Bool) (newVal : Str) :
    ∀ rows : List Row, (∀ r ∈ rows, whereIdx < r.values.length ∧ setIdx < r.values.length) →
    updateRows (updateRowWhere whereIdx setIdx cond newVal) rows =
      (rows.map (fun r =>
        if cond (r.values.getD whereIdx Str.nil) then ⟨r.values.set setIdx newVal⟩ else r),
       (rows.filter (fun r => cond (r.values.getD whereIdx Str.nil))).length) := by
  intro rows
  induction rows with
  | nil => intro _; rfl
  | cons r rs ih =>
    intro h
    have hr := h r (by simp)
    have hrs := ih (fun x hx => h x (by simp [hx]))
    obtain ⟨v, hv⟩ : ∃ v, r.values[whereIdx]? = some v := by
      cases hg : r.values[whereIdx]? with
      | none => exact absurd (List.getElem?_eq_none_iff.mp hg) (by omega)
      | some v => exact ⟨v, rfl⟩
    simp only [updateRows, hrs, updateRowWhere, hv]
    by_cases hc : cond v
    · simp [hc, hr.2, List.filter_cons, hv]
      omega
    · simp [hc, List.filter_cons, hv]

theorem updateRows_all_spec (setIdx : Nat) (newVal : Str) :
    ∀ rows : List Row, (∀ r ∈ rows, setIdx < r.values.length) →
    updateRows (updateRowAll setIdx newVal) rows =
      (rows.map (fun r => ⟨r.values.set setIdx newVal⟩), rows.length) := by
  intro rows
  induction rows with
  | nil => intro _; rfl
  | cons r rs ih =>
    intro h
    have hr := h r (by simp)
    have hrs := ih (fun x hx => h x (by simp [hx]))
    simp [updateRows, hrs, updateRowAll, hr]
    omega

/-! ## LIKE translation identity on metacharacter-free patterns -/

theorem go1_id : ∀ (l v : Nat), v < 256 ^ l →
    (∀ i, i < l → v / pow256 i % 256 ≠ 37) →
    likePattern.go1 l v = ⟨l, v⟩ := by
  intro l
  induction l with
  | zero =>
    intro v hv _
    have h0 : v = 0 := by omega
    subst h0
    rfl
  | succ l ih =>
    intro v hv hb
    have h0 : v % 256 ≠ 37 := by
      have h00 := hb 0 (by omega)
      rw [show pow256 0 = 1 from rfl, Nat.div_one] at h00
      exact h00
    show (if v % 256 = 37 then strOf ".*" else Str.mk 1 (v % 256)).app
        (likePattern.go1 l (v / 256)) = ⟨l + 1, v⟩
    rw [if_neg h0, ih (v / 256) ?_ ?_]
    · show Str.app ⟨1, v % 256⟩ ⟨l, v / 256⟩ = ⟨l + 1, v⟩
      simp only [Str.app, Str.mk.injEq, show pow256 1 = 256 from rfl]
      constructor
      · omega
      · omega
    · rw [Nat.div_lt_iff_lt_mul (by norm_num : (0:Nat) < 256)]
      calc v < 256 ^ (l + 1) := hv
        _ = 256 ^ l * 256 := by rw [pow_succ]
    · intro i hi
      have hb2 := hb (i + 1) (by omega)
      rw [show ∀ j, pow256 j = 256 ^ j from pow256_eq] at hb2 ⊢
      rw [Nat.div_div_eq_div_mul]
      rw [pow_succ'] at hb2
      exact hb2

theorem go2aux_id : ∀ (l v : Nat), v < 256 ^ l →
    (∀ i, i < l → v / pow256 i % 256 ≠ 95) →
    likePattern.go2aux l v = ⟨l, v⟩ := by
  intro l
  induction l with
  | zero =>
    intro v hv _
    have h0 : v = 0 := by omega
    subst h0
    rfl
  | succ l ih =>
    intro v hv hb
    have h0 : v % 256 ≠ 95 := by
      have h00 := hb 0 (by omega)
      rw [show pow256 0 = 1 from rfl, Nat.div_one] at h00
      exact h00
    show (if v % 256 = 95 then Str.mk 1 46 else Str.mk 1 (v % 256)).app
        (likePattern.go2aux l (v / 256)) = ⟨l + 1, v⟩
    rw [if_neg h0, ih (v / 256) ?_ ?_]
    · show Str.app ⟨1, v % 256⟩ ⟨l, v / 256⟩ = ⟨l + 1, v⟩
      simp only [Str.app, Str.mk.injEq, show pow256 1 = 256 from rfl]
      constructor
      · omega
      · omega
    · rw [Nat.div_lt_iff_lt_mul (by norm_num : (0:Nat) < 256)]
      calc v < 256 ^ (l + 1) := hv
        _ = 256 ^ l * 256 := by rw [pow_succ]
    · intro i hi
      have hb2 := hb (i + 1) (by omega)
      rw [show ∀ j, pow256 j = 256 ^ j from pow256_eq] at hb2 ⊢
      rw [Nat.div_div_eq_div_mul]
      rw [pow_succ'] at hb2
      exact hb2

theorem likePattern_no_meta (p : Str) (hwf : p.val < 256 ^ p.len)
    (hb : ∀ i, i < p.len → p.byte i ≠ 37 ∧ p.byte i ≠ 95) :
    likePattern p = p := by
  unfold likePattern
  rw [go1_id p.len p.val hwf (fun i hi => (hb i hi).1)]
  show likePattern.go2aux p.len p.val = p
  rw [go2aux_id p.len p.val hwf (fun i hi => (hb i hi).2)]

/-! ## Claim theorems -/

/-- Claim C1.  The claim states that CREATE TABLE followed by a catalog
reload returns the created table — in particular for the second table
created after an existing one.  The code violates this: `save_table`
patches the previous schema page's **trailing 8 bytes** with the new page
id, while the loader reads `next_schema_page_id` at the **cursor offset**
(still 0), so after `CREATE TABLE a (c TEXT)` then `CREATE TABLE b (d
TEXT)` (both creates returning no error) the reload returns only table
`a` and repairs `table_count` down to 1: table `b` is lost. -/
theorem c1_second_create_lost_on_reload :
    (saveTableFuel 9 diskOne tblB true).map Prod.snd = some none ∧
    (loadCatalogFuel 9 diskTwo).map (fun r => r.2.map Table.name) = some [strOf "a"] ∧
    (loadCatalogFuel 9 diskTwo).map (fun r => headerTableCount r.1) = some 1 ∧
    tblB.name ≠ strOf "a" :=
  ⟨rfl, rfl, rfl, by decide⟩

/-- Claim C2.  The claim states that after any sequence of CREATE TABLE
operations, `table_count` equals the number of schema pages reachable
from `schema_root` by following the `next_schema_page_id` field of the
layout (the last u64 after `data_page_id`).  After two CREATEs the header
says 2 but only one page is reachable along that field (the chain patch
went to the trailing 8 bytes instead), refuting the claim. -/
theorem c2_table_count_vs_reachable :
    headerTableCount diskTwo = 2 ∧ reachableSchemaPages 9 diskTwo = [1] ∧
    headerTableCount diskTwo ≠ (reachableSchemaPages 9 diskTwo).length :=
  ⟨rfl, rfl, by decide⟩

/-- Claim C3.  The claim states that N inserted rows come back exactly
and in order, including when the encoded rows span several chained row
pages.  The code violates the spanning case: saving two rows that each
hold a 3000-byte text value (which cannot share one 4096-byte page), the
second row breaks mid-field after writing only its tag byte, yet is still
counted as written because the check `row.values.len() == columns.len()`
tests the row's arity rather than the fields actually encoded; no second
page is chained, and the reload returns the second row as the empty
string instead of its 3000-byte value. -/
theorem c3_spanning_rows_corrupted :
    c3Loaded = some [⟨[repStr 3000 97]⟩, ⟨[Str.nil]⟩] ∧
    [Row.mk [repStr 3000 97], Row.mk [Str.nil]] ≠ [bigRow, bigRow] :=
  ⟨rfl, by decide⟩

/-- Claim C4.  `evaluate_condition` takes the numeric path exactly when
the declared column type is the string `INTEGER`: both operands are
parsed as `i64`, the predicate is false if either parse fails, and the
six comparison operators compare the parsed integers; for every other
declared type (including `INT`) comparison is textual, where `=` and `!=`
are ASCII case-insensitive equality and every ordering operator on text
yields false. -/
theorem c4_where_comparison_typed (rv lit ty : Str) (hty : ty ≠ strINTEGER) :
    ((parseI64 rv = none ∨ parseI64 lit = none) →
      ∀ op, evaluateCondition rv op lit strINTEGER = false) ∧
    (∀ a b, parseI64 rv = some a → parseI64 lit = some b →
      evaluateCondition rv (strOf "=") lit strINTEGER = (a == b) ∧
      evaluateCondition rv (strOf "!=") lit strINTEGER = (a != b) ∧
      evaluateCondition rv (strOf "<") lit strINTEGER = decide (a < b) ∧
      evaluateCondition rv (strOf ">") lit strINTEGER = decide (b < a) ∧
      evaluateCondition rv (strOf "<=") lit strINTEGER = decide (a ≤ b) ∧
      evaluateCondition rv (strOf ">=") lit strINTEGER = decide (b ≤ a)) ∧
    evaluateCondition rv (strOf "=") lit ty = eqIgnoreAsciiCase rv lit ∧
    evaluateCondition rv (strOf "!=") lit ty = (!eqIgnoreAsciiCase rv lit) ∧
    (∀ op, (op = strOf "<" ∨ op = strOf ">" ∨ op = strOf "<=" ∨ op = strOf ">=") →
      evaluateCondition rv op lit ty = false) := by
  refine ⟨?_, ?_, ?_, ?_, ?_⟩
  · intro h op
    rcases h with h | h
    · simp [evaluateCondition, h]
    · cases hpa : parseI64 rv <;> simp [evaluateCondition, h, hpa]
  · intro a b ha hb
    refine ⟨?_, ?_, ?_, ?_, ?_, ?_⟩ <;>
      simp [evaluateCondition, ha, hb,
        show strOf "!=" ≠ strOf "=" from by decide,
        show strOf "<" ≠ strOf "=" from by decide,
        show strOf "<" ≠ strOf "!=" from by decide,
        show strOf "<" ≠ strOf ">" from by decide,
        show strOf ">" ≠ strOf "=" from by decide,
        show strOf ">" ≠ strOf "!=" from by decide,
        show strOf "<=" ≠ strOf "=" from by decide,
        show strOf "<=" ≠ strOf "!=" from by decide,
        show strOf "<=" ≠ strOf ">" from by decide,
        show strOf "<=" ≠ strOf "<" from by decide,
        show strOf "<=" ≠ strOf ">=" from by decide,
        show strOf ">=" ≠ strOf "=" from by decide,
        show strOf ">=" ≠ strOf "!=" from by decide,
        show strOf ">=" ≠ strOf ">" from by decide,
        show strOf ">=" ≠ strOf "<" from by decide]
  · simp [evaluateCondition, hty]
  · simp [evaluateCondition, hty, show strOf "!=" ≠ strOf "=" from by decide]
  · intro op hop
    rcases hop with h | h | h | h <;> subst h <;>
      simp [evaluateCondition, hty,
        show strOf "<" ≠ strOf "=" from by decide,
        show strOf "<" ≠ strOf "!=" from by decide,
        show strOf "<" ≠ strOf "LIKE" from by decide,
        show strOf "<" ≠ strOf "NOT LIKE" from by decide,
        show strOf ">" ≠ strOf "=" from by decide,
        show strOf ">" ≠ strOf "!=" from by decide,
        show strOf ">" ≠ strOf "LIKE" from by decide,
        show strOf ">" ≠ strOf "NOT LIKE" from by decide,
        show strOf "<=" ≠ strOf "=" from by decide,
        show strOf "<=" ≠ strOf "!=" from by decide,
        show strOf "<=" ≠ strOf "LIKE" from by decide,
        show strOf "<=" ≠ strOf "NOT LIKE" from by decide,
        show strOf ">=" ≠ strOf "=" from by decide,
        show strOf ">=" ≠ strOf "!=" from by decide,
        show strOf ">=" ≠ strOf "LIKE" from by decide,
        show strOf ">=" ≠ strOf "NOT LIKE" from by decide]

/-- Witness for C4 at concrete inputs. -/
theorem c4_where_comparison_typed_witness :
    evaluateCondition (strOf "5") (strOf "<") (strOf "abc") strTEXT = false ∧
    evaluateCondition (strOf "Abc") (strOf "=") (strOf "aBC") strTEXT
      = eqIgnoreAsciiCase (strOf "Abc") (strOf "aBC") :=
  ⟨(c4_where_comparison_typed (strOf "5") (strOf "abc") strTEXT
      (by decide)).2.2.2.2 (strOf "<") (Or.inl rfl),
   (c4_where_comparison_typed (strOf "Abc") (strOf "aBC") strTEXT
      (by decide)).2.2.1⟩

/-- Claim C5.  The claim states that oversized writes return a user error
with no disk mutation, and that `save_rows_to_pages` on a row too big for
one page errors rather than writing or diverging.  The code violates
this: a single row holding a 4085-byte TEXT value makes
`save_rows_to_pages` recurse forever (each level allocating a fresh
page), and `save_table` allocates its schema page before any size
validation, so even the name-too-long user error leaves the file grown by
one page (2 pages instead of 1). -/
theorem c5_oversized_write_diverges :
    (¬ saveRowsTerminates [hugeRow] [colV] [] none) ∧
    (saveTableFuel 3 freshDisk bigNameTbl true).map
      (fun r => (r.1.length, r.2)) = some (2, some (strOf "Table name too long")) := by
  constructor
  · rintro ⟨fuel, hf⟩
    rw [saveRowsHugeNone fuel []] at hf
    simp at hf
  · rfl

/-- Counterexample to claim C6 as stated: `users` and `USERS` are equal
under ASCII case-folding yet `create_table` accepts the second, because
the duplicate check compares names with exact (case-sensitive)
equality. -/
theorem c6_case_insensitive_unique_counterexample :
    lowerStr (strOf "users") = lowerStr (strOf "USERS") ∧
    strOf "users" ≠ strOf "USERS" ∧
    createTableCat [⟨strOf "users", [], []⟩] (strOf "USERS") [] =
      .ok [⟨strOf "users", [], []⟩, ⟨strOf "USERS", [], []⟩] :=
  ⟨by decide, by decide, rfl⟩

/-- Claim C6 as amended: create-time uniqueness is **case-sensitive** —
after a successful `create_table` of a name, a second `create_table` with
exactly that name fails with the already-exists error (while a mere
case-variant is accepted, per the counterexample). -/
theorem c6_create_unique_case_sensitive (tables tables1 : List Table) (name : Str)
    (cols cols1 : List Column)
    (h : createTableCat tables name cols1 = .ok tables1) :
    createTableCat tables1 name cols =
      .error (((strOf "Table ").app ⟨1, 39⟩).app ((name.app ⟨1, 39⟩).app
        (strOf " already exists"))) := by
  unfold createTableCat at h ⊢
  by_cases hc : tables.any (fun t => t.name == name)
  · rw [if_pos hc] at h; cases h
  · rw [if_neg hc] at h
    injection h with h1
    subst h1
    have hcond : (tables ++ [(⟨name, cols1, []⟩ : Table)]).any
        (fun t => t.name == name) = true := by
      simp [List.any_append]
    rw [if_pos hcond]

/-- Witness for the amended C6 at a concrete catalog. -/
theorem c6_create_unique_case_sensitive_witness :
    createTableCat [⟨strOf "t", [], []⟩] (strOf "t") [] =
      .error (((strOf "Table ").app ⟨1, 39⟩).app (((strOf "t").app ⟨1, 39⟩).app
        (strOf " already exists"))) :=
  c6_create_unique_case_sensitive [] [⟨strOf "t", [], []⟩] (strOf "t") [] [] rfl

/-- Claim C7.  For a table whose rows all have full arity and a SET /
WHERE column that resolves, `execute_update` returns the number of rows
on which the WHERE predicate (or `true` when absent) held on the
pre-update values, and exactly those rows get their SET column replaced
by the new value. -/
theorem c7_update_count (t : Table) (setCol newVal : Str) (wc : Option WhereClause)
    (si : Nat) (hset : findColIdx t.columns setCol = some si)
    (harity : ∀ r ∈ t.rows, r.values.length = t.columns.length)
    (hwc : ∀ c ∈ wc, (findColIdx t.columns c.column).isSome = true) :
    executeUpdateTable t setCol newVal wc =
      .ok ({ t with rows := t.rows.map (fun r =>
              if rowPred t.columns wc r then ⟨r.values.set si newVal⟩ else r) },
           (t.rows.filter (rowPred t.columns wc)).length) := by
  have hsi : si < t.columns.length := findColIdx_lt hset
  cases wc with
  | none =>
    simp only [executeUpdateTable, hset]
    rw [updateRows_all_spec si newVal t.rows
      (fun r hr => by rw [harity r hr]; exact hsi)]
    have hfil : List.filter (rowPred t.columns none) t.rows = t.rows :=
      List.filter_eq_self.mpr (fun a _ => by simp [rowPred])
    rw [hfil]
    have hmap : List.map (fun r : Row =>
        if rowPred t.columns none r then Row.mk (r.values.set si newVal) else r) t.rows =
        List.map (fun r : Row => Row.mk (r.values.set si newVal)) t.rows :=
      List.map_congr_left (fun a _ => by simp [rowPred])
    rw [hmap]
  | some c =>
    obtain ⟨wi, hwi⟩ := Option.isSome_iff_exists.mp (hwc c rfl)
    have hwilt : wi < t.columns.length := findColIdx_lt hwi
    have hfun : (fun r : Row => evaluateCondition (r.values.getD wi Str.nil) c.operator
        c.value (((t.columns.get? wi).getD ⟨Str.nil, Str.nil⟩).data_type)) =
        rowPred t.columns (some c) := by
      funext r
      simp [rowPred, hwi]
    simp only [executeUpdateTable, hset, hwi]
    rw [updateRows_where_spec wi si _ newVal t.rows
      (fun r hr => by rw [harity r hr]; exact ⟨hwilt, hsi⟩)]
    simp only []
    rw [hfun]
    have hmap2 : List.map (fun r : Row =>
        if evaluateCondition (r.values.getD wi Str.nil) c.operator c.value
            (((t.columns.get? wi).getD ⟨Str.nil, Str.nil⟩).data_type)
          then Row.mk (r.values.set si newVal) else r) t.rows =
        List.map (fun r : Row =>
          if rowPred t.columns (some c) r then Row.mk (r.values.set si newVal) else r)
          t.rows :=
      List.map_congr_left (fun a _ => by simp [rowPred, hwi])
    rw [hmap2]

/-- Witness for C7: `UPDATE x SET name = Changed WHERE id != 2` on two
rows updates exactly one row. -/
theorem c7_update_count_witness :
    executeUpdateTable tblU (strOf "Name") (strOf "Changed")
        (some ⟨strOf "ID", strOf "!=", strOf "2"⟩) =
      .ok ({ tblU with rows := tblU.rows.map (fun r =>
              if rowPred tblU.columns (some ⟨strOf "ID", strOf "!=", strOf "2"⟩) r
              then ⟨r.values.set 1 (strOf "Changed")⟩ else r) },
           (tblU.rows.filter
             (rowPred tblU.columns (some ⟨strOf "ID", strOf "!=", strOf "2"⟩))).length) :=
  c7_update_count tblU (strOf "Name") (strOf "Changed")
    (some ⟨strOf "ID", strOf "!=", strOf "2"⟩) 1 (by decide) (by decide) (by decide)

/-- Claim C8.  On load, a header with `schema_root = 0` and nonzero
`table_count` has its `table_count` zeroed on disk and yields an empty
catalog; symmetrically, `table_count = 0` with nonzero `schema_root` has
`schema_root` zeroed on disk and yields an empty catalog. -/
theorem c8_load_repairs_header (d : Disk) :
    (headerSchemaRoot d = 0 → headerTableCount d ≠ 0 → ∀ fuel, ∃ d1,
       loadCatalogFuel fuel d = some (d1, []) ∧
       headerTableCount d1 = 0 ∧ headerSchemaRoot d1 = 0) ∧
    (headerTableCount d = 0 → headerSchemaRoot d ≠ 0 → ∀ fuel, ∃ d1,
       loadCatalogFuel fuel d = some (d1, []) ∧
       headerSchemaRoot d1 = 0 ∧ headerTableCount d1 = 0) := by
  have hlt : readPage d 0 < pow256 pageSize := readPage_lt d 0
  constructor
  · intro hroot hcount fuel
    simp only [headerTableCount, headerSchemaRoot] at hroot hcount
    refine ⟨writePage d 0 (writeSlice (readPage d 0) 20 4 0), ?_, ?_, ?_⟩
    · simp only [loadCatalogFuel]
      rw [if_neg hcount, if_pos hroot]
    · show readSlice (readPage (writePage d 0 (writeSlice (readPage d 0) 20 4 0)) 0) 20 4 = 0
      rw [readPage_writePage_self,
        Nat.mod_eq_of_lt (writeSlice_lt _ 20 4 0 (by norm_num [pageSize]) hlt)]
      have hs := readSlice_writeSlice_self (readPage d 0) 20 4 0 (by positivity)
      simpa using hs
    · show readSlice (readPage (writePage d 0 (writeSlice (readPage d 0) 20 4 0)) 0) 12 8 = 0
      rw [readPage_writePage_self,
        Nat.mod_eq_of_lt (writeSlice_lt _ 20 4 0 (by norm_num [pageSize]) hlt)]
      rw [readSlice_writeSlice_before _ _ _ _ _ _ (by norm_num)]
      exact hroot
  · intro hcount hroot fuel
    simp only [headerTableCount, headerSchemaRoot] at hroot hcount
    refine ⟨writePage d 0 (writeSlice (readPage d 0) 12 8 0), ?_, ?_, ?_⟩
    · simp only [loadCatalogFuel]
      rw [if_pos hcount, if_pos hroot]
    · show readSlice (readPage (writePage d 0 (writeSlice (readPage d 0) 12 8 0)) 0) 12 8 = 0
      rw [readPage_writePage_self,
        Nat.mod_eq_of_lt (writeSlice_lt _ 12 8 0 (by norm_num [pageSize]) hlt)]
      have hs := readSlice_writeSlice_self (readPage d 0) 12 8 0 (by positivity)
      simpa using hs
    · show readSlice (readPage (writePage d 0 (writeSlice (readPage d 0) 12 8 0)) 0) 20 4 = 0
      rw [readPage_writePage_self,
        Nat.mod_eq_of_lt (writeSlice_lt _ 12 8 0 (by norm_num [pageSize]) hlt)]
      rw [readSlice_writeSlice_after _ _ _ _ _ _ (by norm_num)]
      exact hcount

/-- Witness for C8 on the B3 file (`table_count = 5`, `schema_root = 0`). -/
theorem c8_load_repairs_header_witness :
    ∃ d1, loadCatalogFuel 7 b3Disk = some (d1, []) ∧
      headerTableCount d1 = 0 ∧ headerSchemaRoot d1 = 0 :=
  (c8_load_repairs_header b3Disk).1 (by decide) (by decide) 7

/-- Counterexample to claim C9 as stated: `load_catalog` does **not**
terminate on every file content.  On a file whose single table has a row
page whose `next_row_page_id` points back to itself, the row-chain walk
(which has no cycle defense) never finishes within any fuel. -/
theorem c9_row_cycle_diverges : ¬ loadTerminates cycDisk := by
  rintro ⟨fuel, hf⟩
  rw [loadCatalogCycNone fuel] at hf
  simp at hf

/-- Claim C9 as amended: the schema-chain walk of `load_catalog` is
cycle-safe and the whole load terminates on every file whose row-page
chains halt; on the B4 file (a schema page whose `next_schema_page_id`
points to itself, header announcing two tables) the visited set detects
the revisit, the walk stops, the one table decoded before the cycle is
returned, and the header count is repaired to 1. -/
theorem c9_load_terminates_cycle_detected :
    (∀ d : Disk, rowChainsHalt d → loadTerminates d) ∧
    (loadCatalogFuel 0 b4Disk).map (fun r => (r.2.map Table.name, headerTableCount r.1))
      = some ([strOf "a"], 1) :=
  ⟨loadCatalog_halts, rfl⟩

/-- Witness for the amended C9: the empty file trivially has halting row
chains, so its load terminates. -/
theorem c9_load_terminates_cycle_detected_witness : loadTerminates ([] : Disk) :=
  c9_load_terminates_cycle_detected.1 []
    (fun pid cols acc => ⟨1, by
      have hz : readPage ([] : Disk) pid = 0 := by
        unfold readPage
        simp [List.getD_eq_getElem?_getD]
      simp [loadRowsFuel, hz, isZeroPage]⟩)

/-- Claim C10.  In the textual LIKE path only `%` and `_` are translated
(to `.*` and `.`); every other byte of the pattern passes through to the
regex engine unescaped, so a well-formed pattern free of `%`/`_` is
passed verbatim (first conjunct).  Hence LIKE can match strings the
literal SQL pattern would not: `abc LIKE a.c` evaluates true although the
literal SQL LIKE semantics reject it; and a pattern that forms an invalid
regex, such as `a(`, makes LIKE return false. -/
theorem c10_like_translation :
    (∀ p : Str, p.val < 256 ^ p.len →
      (∀ i, i < p.len → p.byte i ≠ 37 ∧ p.byte i ≠ 95) → likePattern p = p) ∧
    evaluateCondition (strOf "abc") (strOf "LIKE") (strOf "a.c") strTEXT = true ∧
    sqlLikeMatch (strOf "a.c") (strOf "abc") = false ∧
    evaluateCondition (strOf "abc") (strOf "LIKE") (strOf "a(") strTEXT = false :=
  ⟨likePattern_no_meta, rfl, rfl, rfl⟩

/-- Witness for C10 on a concrete metacharacter-free pattern. -/
theorem c10_like_translation_witness : likePattern (strOf "a.c") = strOf "a.c" :=
  c10_like_translation.1 (strOf "a.c") (by decide) (by decide)

end IsentaDB
